import Mathlib

/-!
Verification of an SSD-style object-detection code base.

We give a shallow embedding of the relevant parts of the repository:
* `src/data/utils.py` — `batch_ind_fn`, `_one_hot_encode`
* `src/ssd/models/ssd_base.py` — `SSDBase.__init__`, the build flags,
  `SSDBase.forward` guard, `SSDBase.infer`
* `src/ssd/core/layers.py` — `Conv2d.block`, `Predictor.forward`

Tensors of floats are modelled as lists / index functions over `ℚ`.
-/

open List

/-! ## src/data/utils.py -/

/-- `np.zeros((r, c))` as a list-of-rows matrix of rationals. -/
def np_zeros (r c : Nat) : List (List ℚ) :=
  List.replicate r (List.replicate c (0 : ℚ))

/-- `ret_gt[:, 1:] = gt` : overwrite all columns but the first with `gt`
(rows are paired positionally, as numpy does for equal shapes). -/
def set_tail_cols (m g : List (List ℚ)) : List (List ℚ) :=
  List.zipWith (fun mrow grow => mrow.take 1 ++ grow) m g

/-- `ret_gt[:, 0] = ind` : overwrite the first column with a constant. -/
def set_col0 (m : List (List ℚ)) (v : ℚ) : List (List ℚ) :=
  m.map fun row => v :: row.drop 1

/-- One loop iteration of `batch_ind_fn`: build
`np.zeros((len(gt), gt.shape[1] + 1))`, copy `gt` into columns `1:`, and put
the image index into column `0`. -/
def mk_ret_gt (ind : Nat) (gt : List (List ℚ)) : List (List ℚ) :=
  set_col0 (set_tail_cols (np_zeros gt.length ((gt.headD []).length + 1)) gt) (ind : ℚ)

/-- `batch_ind_fn` from `src/data/utils.py`: split the batch into images and
ground truths, prepend the image index to every ground-truth row, and
concatenate (`np.concatenate`).  Images are returned unchanged (the
`torch.stack` only repackages them). -/
def batch_ind_fn {α : Type} (batch : List (α × List (List ℚ))) :
    List α × List (List ℚ) :=
  let imgs := batch.map Prod.fst
  let gts := batch.map Prod.snd
  (imgs, gts.enum.flatMap fun p => mk_ret_gt p.1 p.2)

/-- `_one_hot_encode` from `src/data/utils.py`: `np.zeros((size, class_num))`
followed by the fancy assignment `one_hot[np.arange(size), indices] = 1`,
which sets position `indices[k]` in row `k`. -/
def one_hot_encode (indices : List Nat) (class_num : Nat) : List (List ℚ) :=
  indices.map fun idx => (List.replicate class_num (0 : ℚ)).set idx 1

lemma set_tail_cols_zeros_cons (c : Nat) (g0 : List ℚ) (gt : List (List ℚ)) :
    set_tail_cols (np_zeros (gt.length + 1) (c + 1)) (g0 :: gt) =
      ((0 : ℚ) :: g0) :: set_tail_cols (np_zeros gt.length (c + 1)) gt := by
  simp [set_tail_cols, np_zeros, List.replicate_succ]

lemma mk_ret_gt_aux (ind : Nat) (c : Nat) :
    ∀ gt : List (List ℚ),
      set_col0 (set_tail_cols (np_zeros gt.length (c + 1)) gt) (ind : ℚ) =
        gt.map fun row => ((ind : ℚ) :: row) := by
  intro gt
  induction gt with
  | nil => simp [set_col0, set_tail_cols, np_zeros]
  | cons g0 gt ih =>
    rw [show (g0 :: gt).length = gt.length + 1 from rfl, set_tail_cols_zeros_cons]
    simp only [set_col0, List.map_cons] at ih ⊢
    rw [ih]
    simp

lemma mk_ret_gt_eq (ind : Nat) (gt : List (List ℚ)) :
    mk_ret_gt ind gt = gt.map fun row => ((ind : ℚ) :: row) := by
  unfold mk_ret_gt
  exact mk_ret_gt_aux ind _ gt

/-- C7: `batch_ind_fn` returns ground-truth rows whose column 0 is the
originating image's index within the batch and whose remaining columns are the
original ground-truth values unchanged; the number of output rows is the sum
of the per-image ground-truth counts. -/
theorem batch_ind_fn_spec {α : Type} (batch : List (α × List (List ℚ)))
    (_hrect : ∀ p ∈ batch, ∀ row ∈ p.2, row.length = (p.2.headD []).length) :
    (batch_ind_fn batch).2 =
      (batch.map Prod.snd).enum.flatMap
        (fun p => p.2.map fun row => ((p.1 : ℚ) :: row)) ∧
    ((batch_ind_fn batch).2).length =
      ((batch.map Prod.snd).map List.length).sum := by
  have hmain : (batch_ind_fn batch).2 =
      (batch.map Prod.snd).enum.flatMap
        (fun p => p.2.map fun row => ((p.1 : ℚ) :: row)) := by
    simp only [batch_ind_fn]
    refine List.flatMap_congr ?_
    intro p _
    exact mk_ret_gt_eq p.1 p.2
  refine ⟨hmain, ?_⟩
  rw [hmain, List.length_flatMap]
  have h2 : (List.length ∘ fun p : Nat × List (List ℚ) =>
      p.2.map fun row => ((p.1 : ℚ) :: row)) = fun p => p.2.length := by
    funext p; simp
  rw [h2]
  have h3 : ((batch.map Prod.snd).enum.map fun p => p.2.length) =
      (batch.map Prod.snd).map List.length := by
    rw [show (fun p : Nat × List (List ℚ) => p.2.length) =
          List.length ∘ Prod.snd from rfl,
        ← List.map_map, List.enum_map_snd]
  rw [h3]

/-- C7 witness: a concrete two-image batch. -/
theorem batch_ind_fn_spec_witness :
    (batch_ind_fn [((), [[5, 6]]), ((), [[7, 8], [9, 10]])]).2 =
        [[0, 5, 6], [1, 7, 8], [1, 9, 10]] ∧
      ((batch_ind_fn [((), [[5, 6]]), ((), [[7, 8], [9, 10]])] :
          List Unit × List (List ℚ))).2.length = 3 := by
  have h := batch_ind_fn_spec [((), [[5, 6]]), ((), [[7, 8], [9, 10]])] (by decide)
  exact ⟨by rw [h.1]; rfl, by rw [h.2]; rfl⟩

lemma sum_replicate_set_one : ∀ (n i : Nat), i < n →
    ((List.replicate n (0 : ℚ)).set i 1).sum = 1 := by
  intro n
  induction n with
  | zero => intro i h; omega
  | succ n ih =>
    intro i h
    cases i with
    | zero => simp [List.replicate_succ, List.sum_replicate]
    | succ i =>
      simp only [List.replicate_succ, List.set, List.sum_cons]
      rw [ih i (by omega)]
      norm_num

/-- C10: for index lists whose entries are all below `class_num`,
`_one_hot_encode` returns one row per index; each row has length `class_num`,
carries a `1` exactly at the given index and `0` everywhere else, and sums
to `1`. -/
theorem one_hot_encode_spec (indices : List Nat) (class_num : Nat)
    (h : ∀ i ∈ indices, i < class_num) :
    (one_hot_encode indices class_num).length = indices.length ∧
    ∀ k, k < indices.length →
      ((one_hot_encode indices class_num).getD k []).length = class_num ∧
      (∀ j, j < class_num →
        ((one_hot_encode indices class_num).getD k []).getD j 0 =
          if j = indices.getD k 0 then 1 else 0) ∧
      ((one_hot_encode indices class_num).getD k []).sum = 1 := by
  refine ⟨by simp [one_hot_encode], ?_⟩
  intro k hk
  have hrow : (one_hot_encode indices class_num).getD k [] =
      (List.replicate class_num (0 : ℚ)).set (indices.getD k 0) 1 := by
    unfold one_hot_encode
    rw [List.getD_eq_getElem _ _ (by simpa using hk), List.getElem_map,
      List.getD_eq_getElem _ _ hk]
  have hidx : indices.getD k 0 < class_num := by
    have := h (indices.getD k 0) ?_
    · exact this
    · rw [List.getD_eq_getElem _ _ hk]
      exact List.getElem_mem hk
  rw [hrow]
  refine ⟨by simp, ?_, sum_replicate_set_one class_num _ hidx⟩
  intro j hj
  have hjlen : j < ((List.replicate class_num (0 : ℚ)).set (indices.getD k 0) 1).length := by
    simpa using hj
  rw [List.getD_eq_getElem _ _ hjlen, List.getElem_set]
  by_cases hcase : indices.getD k 0 = j
  · rw [if_pos hcase, if_pos hcase.symm]
  · rw [if_neg hcase, if_neg (fun hc => hcase hc.symm)]
    exact List.getElem_replicate _ _

/-- C10 witness: `_one_hot_encode [0, 2] 3` at row 1. -/
theorem one_hot_encode_spec_witness :
    (∀ i ∈ [0, 2], i < 3) ∧
      ((one_hot_encode [0, 2] 3).getD 1 []).getD 2 0 = 1 ∧
      ((one_hot_encode [0, 2] 3).getD 1 []).sum = 1 := by
  have h := one_hot_encode_spec [0, 2] 3 (by decide)
  have h1 := (h.2 1 (by decide)).2.1 2 (by decide)
  have h2 := (h.2 1 (by decide)).2.2
  refine ⟨by decide, ?_, h2⟩
  rw [h1]
  norm_num

/-! ## src/ssd/models/ssd_base.py — construction and build flags -/

/-- The attributes `SSDBase.__init__` sets, plus the four progress flags. -/
structure SSDBaseState where
  class_nums : Nat
  input_shape : List Nat
  batch_norm : Bool
  isbuilt_layer : Bool
  isbuilt_box : Bool
  isbuilt_infBox : Bool
  called_learn_inferr : Bool
deriving DecidableEq

/-- `SSDBase.__init__`: asserts `len(input_shape) == 3` and
`input_shape[0] == input_shape[1]` before storing anything; every flag starts
out `False`.  A failed `assert` is an error result. -/
def SSDBase.init (class_nums : Nat) (input_shape : List Nat) (batch_norm : Bool) :
    Except String SSDBaseState :=
  if input_shape.length ≠ 3 then .error "input dimension must be 3"
  else if input_shape.getD 0 0 ≠ input_shape.getD 1 0 then .error "input must be square size"
  else .ok ⟨class_nums, input_shape, batch_norm, false, false, false, false⟩

/-- C4: constructing the model with an `input_shape` that is not 3-dimensional
or not square (height ≠ width) fails at build time with an error. -/
theorem ssd_init_rejects_bad_shape (cn : Nat) (shape : List Nat) (bn : Bool)
    (h : shape.length ≠ 3 ∨ shape.getD 0 0 ≠ shape.getD 1 0) :
    ∃ e, SSDBase.init cn shape bn = .error e := by
  unfold SSDBase.init
  rcases h with h | h
  · rw [if_pos h]; exact ⟨_, rfl⟩
  · by_cases h3 : shape.length ≠ 3
    · rw [if_pos h3]; exact ⟨_, rfl⟩
    · rw [if_neg h3, if_pos h]; exact ⟨_, rfl⟩

/-- C4 witness: a non-square 3d shape is rejected. -/
theorem ssd_init_rejects_bad_shape_witness :
    (([1, 2, 3] : List Nat).length ≠ 3 ∨ ([1, 2, 3] : List Nat).getD 0 0 ≠ ([1, 2, 3] : List Nat).getD 1 0) ∧
      ∃ e, SSDBase.init 21 [1, 2, 3] true = .error e :=
  ⟨by decide, ssd_init_rejects_bad_shape 21 [1, 2, 3] true (by decide)⟩

/-- The three build flags of `SSDBase` (`_isbuilt_layer`, `_isbuilt_box`,
`_isbuilt_infBox`). -/
structure BuildFlags where
  isbuilt_layer : Bool
  isbuilt_box : Bool
  isbuilt_infBox : Bool
deriving DecidableEq

/-- Flag state right after `SSDBase.__init__`. -/
def initFlags : BuildFlags := ⟨false, false, false⟩

/-- The `isBuilt` property: all three flags conjoined. -/
def SSDBase.isBuilt (s : BuildFlags) : Bool :=
  s.isbuilt_layer && s.isbuilt_box && s.isbuilt_infBox

/-- The three `_build_*` methods as calls. -/
inductive BuildCall where
  | layers
  | defaultBox
  | inferenceBox
deriving DecidableEq

/-- One `_build_*` call: `_build_layers` and `_build_inferenceBox` set their
flag; `_build_defaultBox` raises `NotImplementedError` unless `_build_layers`
ran first, and otherwise sets its flag. -/
def execCall (s : BuildFlags) : BuildCall → Except String BuildFlags
  | .layers => .ok { s with isbuilt_layer := true }
  | .defaultBox =>
      match s.isbuilt_layer with
      | true => .ok { s with isbuilt_box := true }
      | false => .error "Call _build_layers first!"
  | .inferenceBox => .ok { s with isbuilt_infBox := true }

/-- Run a sequence of build calls, stopping at the first raised error. -/
def execSeq (s : BuildFlags) : List BuildCall → Except String BuildFlags
  | [] => .ok s
  | c :: cs =>
      match execCall s c with
      | .error e => .error e
      | .ok s2 => execSeq s2 cs

/-- The guard of `SSDBase.forward`: raise unless `isBuilt`, then raise unless
`learn`/`infer` has been called. -/
def SSDBase.forward (s : BuildFlags) (called_learn_inferr : Bool) : Except String Unit :=
  if ¬ SSDBase.isBuilt s then
    .error "call _build_layers, _build_defaultBox and _build_infBox first"
  else if ¬ called_learn_inferr then .error "call learn or infer first"
  else .ok ()

lemma execSeq_flags : ∀ (cs : List BuildCall) (s s2 : BuildFlags),
    execSeq s cs = .ok s2 →
      (s2.isbuilt_layer = true ↔ (s.isbuilt_layer = true ∨ BuildCall.layers ∈ cs)) ∧
      (s2.isbuilt_box = true ↔ (s.isbuilt_box = true ∨ BuildCall.defaultBox ∈ cs)) ∧
      (s2.isbuilt_infBox = true ↔ (s.isbuilt_infBox = true ∨ BuildCall.inferenceBox ∈ cs)) := by
  intro cs
  induction cs with
  | nil =>
    intro s s2 h
    simp only [execSeq] at h
    cases h
    simp
  | cons c cs ih =>
    intro s s2 h
    cases c with
    | layers =>
      simp only [execSeq, execCall] at h
      have h2 := ih _ _ h
      simp only [List.mem_cons] at h2 ⊢
      simp at h2
      tauto
    | defaultBox =>
      cases hl : s.isbuilt_layer with
      | false => simp [execSeq, execCall, hl] at h
      | true =>
        simp only [execSeq, execCall, hl] at h
        have h2 := ih _ _ h
        simp only [List.mem_cons] at h2 ⊢
        simp at h2
        simp [hl]
        tauto
    | inferenceBox =>
      simp only [execSeq, execCall] at h
      have h2 := ih _ _ h
      simp only [List.mem_cons] at h2 ⊢
      simp at h2
      tauto

/-- C6: starting from a fresh model, a successful sequence of build calls
makes `isBuilt` true exactly when all three `_build_*` methods occur in it;
`_build_defaultBox` raises when `_build_layers` has not run; and `forward`
raises whenever `isBuilt` is false. -/
theorem ssd_build_progression :
    (∀ (cs : List BuildCall) (s2 : BuildFlags), execSeq initFlags cs = .ok s2 →
      (SSDBase.isBuilt s2 = true ↔
        (BuildCall.layers ∈ cs ∧ BuildCall.defaultBox ∈ cs ∧
          BuildCall.inferenceBox ∈ cs))) ∧
    (∀ s : BuildFlags, s.isbuilt_layer = false →
      execCall s BuildCall.defaultBox = .error "Call _build_layers first!") ∧
    (∀ (s : BuildFlags) (flag : Bool), SSDBase.isBuilt s = false →
      ∃ e, SSDBase.forward s flag = .error e) := by
  refine ⟨?_, ?_, ?_⟩
  · intro cs s2 h
    have h2 := execSeq_flags cs initFlags s2 h
    simp only [initFlags] at h2
    simp only [SSDBase.isBuilt, Bool.and_eq_true]
    simp at h2
    tauto
  · intro s h
    simp [execCall, h]
  · intro s flag h
    exact ⟨"call _build_layers, _build_defaultBox and _build_infBox first",
      by simp [SSDBase.forward, h]⟩

/-- C6 witness: the full build sequence yields `isBuilt`, and the two raising
branches fire on a fresh model. -/
theorem ssd_build_progression_witness :
    (SSDBase.isBuilt ⟨true, true, true⟩ = true ↔
      (BuildCall.layers ∈ [BuildCall.layers, BuildCall.defaultBox, BuildCall.inferenceBox] ∧
        BuildCall.defaultBox ∈ [BuildCall.layers, BuildCall.defaultBox, BuildCall.inferenceBox] ∧
        BuildCall.inferenceBox ∈ [BuildCall.layers, BuildCall.defaultBox, BuildCall.inferenceBox])) ∧
    execCall initFlags BuildCall.defaultBox = .error "Call _build_layers first!" ∧
    (∃ e, SSDBase.forward initFlags true = .error e) :=
  ⟨ssd_build_progression.1 [BuildCall.layers, BuildCall.defaultBox, BuildCall.inferenceBox]
      ⟨true, true, true⟩ rfl,
    ssd_build_progression.2.1 initFlags rfl,
    ssd_build_progression.2.2 initFlags true rfl⟩

/-! ## src/ssd/core/layers.py — Conv2d.block -/

/-- `in_channels` / `out_channels` arguments of `Conv2d.block`: either an
`int` or a tuple of ints. -/
inductive ChanArg where
  | int : Nat → ChanArg
  | tup : List Nat → ChanArg

/-- A layer entry produced by `Conv2d.block`: the name parts
(`conv{order}_{bnum+1}` / `bn{order}_{bnum+1}`) plus channel arguments. -/
inductive LayerSpec where
  | conv (order bnum : Nat) (in_c out_c : Nat)
  | bn (order bnum : Nat) (c : Nat)
deriving DecidableEq

/-- `Conv2d.block`: normalise `out_channels` (an `int` is repeated
`block_num` times) and `in_channels` (an `int` becomes
`[in] ++ out_channels[:-1]`), check the lengths against `block_num`, then
emit one conv (and optionally one batch-norm) entry per channel pair. -/
def Conv2d.block (order block_num : Nat) (in_channels out_channels : ChanArg)
    (batch_norm : Bool) : Except String (List LayerSpec) :=
  let outc : List Nat :=
    match out_channels with
    | .int n => List.replicate block_num n
    | .tup l => l
  let inc : List Nat :=
    match in_channels with
    | .int n => n :: outc.dropLast
    | .tup l => l
  if ¬ (outc.length = block_num ∧ inc.length = outc.length) then
    .error "block_nums and length of out_channels and in_channels must be same"
  else
    .ok ((inc.zip outc).enum.flatMap fun p =>
      if batch_norm then
        [LayerSpec.conv order (p.1 + 1) p.2.1 p.2.2, LayerSpec.bn order (p.1 + 1) p.2.2]
      else
        [LayerSpec.conv order (p.1 + 1) p.2.1 p.2.2])

/-- C5: with explicit channel lists, `Conv2d.block` raises exactly when the
two list lengths do not both equal `block_num`, and succeeds otherwise. -/
theorem conv2d_block_length_check (order block_num : Nat) (inc outc : List Nat)
    (bnorm : Bool) :
    ((¬ (inc.length = block_num ∧ outc.length = block_num)) →
      Conv2d.block order block_num (.tup inc) (.tup outc) bnorm =
        .error "block_nums and length of out_channels and in_channels must be same") ∧
    ((inc.length = block_num ∧ outc.length = block_num) →
      ∃ layers, Conv2d.block order block_num (.tup inc) (.tup outc) bnorm = .ok layers) := by
  constructor
  · intro h
    have hcond : ¬ (outc.length = block_num ∧ inc.length = outc.length) := by
      intro hc
      exact h ⟨by omega, hc.1⟩
    simp only [Conv2d.block]
    rw [if_pos hcond]
  · intro h
    have hcond : ¬ ¬ (outc.length = block_num ∧ inc.length = outc.length) := by
      intro hc
      exact hc ⟨h.2, by omega⟩
    simp only [Conv2d.block]
    rw [if_neg hcond]
    exact ⟨_, rfl⟩

/-- C5 witness: a matched and a mismatched channel-list pair. -/
theorem conv2d_block_length_check_witness :
    (Conv2d.block 1 2 (.tup [3]) (.tup [4, 5]) true =
      .error "block_nums and length of out_channels and in_channels must be same") ∧
    ∃ layers, Conv2d.block 1 2 (.tup [3, 4]) (.tup [4, 5]) true = .ok layers :=
  ⟨(conv2d_block_length_check 1 2 [3] [4, 5] true).1 (by decide),
    (conv2d_block_length_check 1 2 [3, 4] [4, 5] true).2 (by decide)⟩

/-! ## src/ssd/models/ssd_base.py — infer -/

/-- A torch tensor / numpy array: a shape plus a total indexing function. -/
structure TensorN where
  shape : List Nat
  data : List Nat → ℚ

/-- Placeholder tensor used only as a `getD`/`headD` default. -/
def default_tensor : TensorN := ⟨[], fun _ => 0⟩

/-- `torch.stack(image)` for a list of equally-shaped tensors. -/
def torch_stack (ts : List TensorN) : TensorN :=
  ⟨ts.length :: (ts.headD default_tensor).shape,
   fun ix => (ts.getD (ix.headD 0) default_tensor).data (ix.drop 1)⟩

/-- `img.unsqueeze(0)`. -/
def unsqueeze0 (t : TensorN) : TensorN :=
  ⟨1 :: t.shape, fun ix => t.data (ix.drop 1)⟩

/-- `img.permute((0, 3, 1, 2))` on a 4-d tensor. -/
def permute0312 (t : TensorN) : TensorN :=
  ⟨[t.shape.getD 0 0, t.shape.getD 3 0, t.shape.getD 1 0, t.shape.getD 2 0],
   fun ix => t.data [ix.getD 0 0, ix.getD 2 0, ix.getD 3 0, ix.getD 1 0]⟩

/-- One result dimension of a broadcast: size 1 stretches to the other
side's size, otherwise the (equal) size is kept. -/
def merge_dim (a b : Nat) : Nat := if a = 1 then b else a

/-- Pad a shape with leading 1s to length `n` (torch aligns shapes from the
right). -/
def pad1 (n : Nat) (s : List Nat) : List Nat :=
  List.replicate (n - s.length) 1 ++ s

/-- The broadcast of two shapes: after right-alignment, two sizes are
compatible when they are equal or one of them is 1.  Incompatible shapes make
the torch operation raise a RuntimeError, modelled as `none`. -/
def broadcast_shape (s1 s2 : List Nat) : Option (List Nat) :=
  let n := max s1.length s2.length
  let a := pad1 n s1
  let b := pad1 n s2
  if (List.zip a b).all fun p => p.1 == p.2 || p.1 == 1 || p.2 == 1 then
    some (List.zipWith merge_dim a b)
  else none

/-- Map an index of a broadcast result back to an index of one source
tensor: keep the trailing components and collapse stretched (size-1)
dimensions to 0. -/
def src_index (s ix : List Nat) : List Nat :=
  List.zipWith (fun d i => if d = 1 then 0 else i) s (ix.drop (ix.length - s.length))

/-- A pointwise binary torch operation with broadcasting: `none` when the
shapes are incompatible (the source op raises), otherwise the
broadcast-shaped result. -/
def bcast_op (op : ℚ → ℚ → ℚ) (t1 t2 : TensorN) : Option TensorN :=
  match broadcast_shape t1.shape t2.shape with
  | none => none
  | some s =>
      some ⟨s, fun ix =>
        op (t1.data (src_index t1.shape ix)) (t2.data (src_index t2.shape ix))⟩

/-- `torch.tensor(v).unsqueeze(0).unsqueeze(2).unsqueeze(3)`: the rgb means
or stds as a `(1, len(v), 1, 1)` tensor. -/
def stats_tensor (v : List ℚ) : TensorN :=
  ⟨[1, v.length, 1, 1], fun ix => v.getD (ix.getD 1 0) 0⟩

/-- The pointwise value of `(img - rgb_means) / rgb_stds` at a
channel-aligned index.  The raising / shape-stretching broadcast semantics of
the op itself live in `bcast_op` / `norm_chain`; on an image whose channel
dimension matches the stats, the chain computes exactly these values
(`norm_chain_aligned_true`). -/
def normTensor (t : TensorN) (rgb_means rgb_stds : List ℚ) : TensorN :=
  ⟨t.shape, fun ix =>
    (t.data ix - rgb_means.getD (ix.getD 1 0) 0) / rgb_stds.getD (ix.getD 1 0) 0⟩

/-- The pointwise value of `img * rgb_stds + rgb_means` at a channel-aligned
index (see `norm_chain_aligned_false` for the link to the broadcast op). -/
def denormTensor (t : TensorN) (rgb_means rgb_stds : List ℚ) : TensorN :=
  ⟨t.shape, fun ix =>
    t.data ix * rgb_stds.getD (ix.getD 1 0) 0 + rgb_means.getD (ix.getD 1 0) 0⟩

/-- The normalization arithmetic of `infer` as the source performs it:
`(img - rgb_means) / rgb_stds` when `toNorm`, else
`img * rgb_stds + rgb_means` — each step a broadcast op that raises (`none`)
on a shape incompatible with the `(1, len, 1, 1)` stats. -/
def norm_chain (img : TensorN) (toNorm : Bool) (rgb_means rgb_stds : List ℚ) :
    Option TensorN :=
  if toNorm then
    (bcast_op (· - ·) img (stats_tensor rgb_means)).bind fun r =>
      bcast_op (· / ·) r (stats_tensor rgb_stds)
  else
    (bcast_op (· * ·) img (stats_tensor rgb_stds)).bind fun r =>
      bcast_op (· + ·) r (stats_tensor rgb_means)

/-- The accepted runtime types of `infer`'s `image` argument. -/
inductive ImageInput where
  | tlist (ts : List TensorN)
  | ndarray (t : TensorN)
  | tensor (t : TensorN)
  | other

/-- The type-dispatch at the top of `infer` (`torch.stack` a list,
`torch.tensor` an ndarray, keep a tensor, otherwise `ValueError`). -/
def imgOf : ImageInput → Option TensorN
  | .tlist ts => some (torch_stack ts)
  | .ndarray t => some t
  | .tensor t => some t
  | .other => none

/-- Errors `infer` can raise: the train-mode guard, the image-type
ValueError, the broadcasting RuntimeError raised by the normalization
arithmetic itself, and the shape-check ValueError that names the expected and
offending shapes. -/
inductive InferErr where
  | notTest
  | invalidType
  | broadcastError
  | shapeMismatch (expected got : List Nat)
deriving DecidableEq

/-- Observable steps of one `infer` call, in source order: the
normalization / de-normalization arithmetic on the image, the input-shape
check, and setting `_called_learn_inferr`. -/
inductive Ev where
  | normalize
  | denormalize
  | shapeCheck
  | setFlag
deriving DecidableEq

/-- The `SSDBase` state `infer` reads and writes. -/
structure InferState where
  training : Bool
  input_shape : List Nat
  called_learn_inferr : Bool
deriving DecidableEq

/-- The optional `unsqueeze(0)` (3-d input) and optional
`permute((0, 3, 1, 2))` (`convert_torch`) applied before normalization. -/
def adjusted_img (img0 : TensorN) (convert_torch : Bool) : TensorN :=
  let img1 := if img0.shape.length = 3 then unsqueeze0 img0 else img0
  if convert_torch then permute0312 img1 else img1

/-- `np.array(self.input_shape)[np.array([2, 0, 1])]`: the stored
`(height, width, channel)` reordered to `(channel, height, width)`. -/
def expected_shape (st : InferState) : List Nat :=
  [st.input_shape.getD 2 0, st.input_shape.getD 0 0, st.input_shape.getD 1 0]

/-- `SSDBase.infer`.  Returns the result (or raised error), the state after
the call, and the trace of completed observable steps in the order the source
performs them: the normalization arithmetic runs before the shape check (and
itself raises a broadcasting error when the image's shape is incompatible
with the `(1, len, 1, 1)` stats, so the shape check is never reached), and the
`_called_learn_inferr` flag is set only after the check passes. -/
def SSDBase.infer (st : InferState) (image : ImageInput) (toNorm : Bool)
    (rgb_means rgb_stds : List ℚ) (convert_torch : Bool) :
    Except InferErr (TensorN × TensorN) × InferState × List Ev :=
  if st.training then (.error .notTest, st, [])
  else
    match imgOf image with
    | none => (.error .invalidType, st, [])
    | some img0 =>
      let img := adjusted_img img0 convert_torch
      match norm_chain img toNorm rgb_means rgb_stds with
      | none => (.error .broadcastError, st, [])
      | some res =>
        let normed_img := if toNorm then res else img
        let orig_img := if toNorm then img else res
        let evs : List Ev := if toNorm then [.normalize] else [.denormalize]
        if img.shape.drop 1 ≠ expected_shape st then
          (.error (.shapeMismatch (expected_shape st) (img.shape.drop 1)), st,
            evs ++ [.shapeCheck])
        else
          (.ok (normed_img, orig_img), { st with called_learn_inferr := true },
            evs ++ [.shapeCheck, .setFlag])

/-- Whether an observable step performs arithmetic on the image. -/
def isComputeEv : Ev → Bool
  | .normalize => true
  | .denormalize => true
  | _ => false

/-- The shape check precedes every computation on the image in the trace. -/
def check_precedes_compute (t : List Ev) : Bool :=
  (t.takeWhile fun e => decide (e ≠ Ev.shapeCheck)).all fun e => ! isComputeEv e

/-- C3 counterexample: a concrete mismatched image.  `infer` does raise the
error naming the expected and offending shapes, but the normalization
arithmetic on the image happens before the shape check, so the check does not
precede all computation on the image. -/
theorem infer_shape_check_not_first_cex :
    (SSDBase.infer ⟨false, [2, 2, 3], false⟩ (.tensor ⟨[1, 1, 1], fun _ => 0⟩)
        true [1, 1, 1] [1, 1, 1] false).1 =
      .error (.shapeMismatch [3, 2, 2] [1, 1, 1]) ∧
    (SSDBase.infer ⟨false, [2, 2, 3], false⟩ (.tensor ⟨[1, 1, 1], fun _ => 0⟩)
        true [1, 1, 1] [1, 1, 1] false).2.2 = [Ev.normalize, Ev.shapeCheck] ∧
    check_precedes_compute
      (SSDBase.infer ⟨false, [2, 2, 3], false⟩ (.tensor ⟨[1, 1, 1], fun _ => 0⟩)
        true [1, 1, 1] [1, 1, 1] false).2.2 = false :=
  ⟨rfl, rfl, rfl⟩

lemma infer_eq_bcast_fail (st : InferState) (image : ImageInput) (toNorm : Bool)
    (rgb_means rgb_stds : List ℚ) (convert_torch : Bool) (img0 : TensorN)
    (htr : st.training = false) (himg : imgOf image = some img0)
    (hbc : norm_chain (adjusted_img img0 convert_torch) toNorm rgb_means rgb_stds =
      none) :
    SSDBase.infer st image toNorm rgb_means rgb_stds convert_torch =
      (.error .broadcastError, st, []) := by
  unfold SSDBase.infer
  rw [htr, himg]
  simp only [Bool.false_eq_true, if_false]
  rw [hbc]

lemma infer_eq_mismatch (st : InferState) (image : ImageInput) (toNorm : Bool)
    (rgb_means rgb_stds : List ℚ) (convert_torch : Bool) (img0 res : TensorN)
    (htr : st.training = false) (himg : imgOf image = some img0)
    (hbc : norm_chain (adjusted_img img0 convert_torch) toNorm rgb_means rgb_stds =
      some res)
    (hsh : (adjusted_img img0 convert_torch).shape.drop 1 ≠ expected_shape st) :
    SSDBase.infer st image toNorm rgb_means rgb_stds convert_torch =
      (.error (.shapeMismatch (expected_shape st)
          ((adjusted_img img0 convert_torch).shape.drop 1)), st,
        (if toNorm then [Ev.normalize] else [Ev.denormalize]) ++ [Ev.shapeCheck]) := by
  unfold SSDBase.infer
  rw [htr, himg]
  simp only [Bool.false_eq_true, if_false]
  rw [hbc]
  simp only []
  rw [if_pos hsh]

/-- C3 (amended): consider an eval-mode call on an image of a valid type
whose shape (after the optional unsqueeze / permute) differs from the
configured input shape.  When the image's shape is broadcast-compatible with
the `(1, len, 1, 1)` rgb statistics — so the normalization / de-normalization
arithmetic completes — `infer` raises the error identifying the expected and
the offending shape and leaves the state unchanged, though only after that
arithmetic has run.  When the shape is broadcast-incompatible, the arithmetic
itself raises a broadcasting error first and the shape-identifying error is
never reached. -/
theorem infer_shape_mismatch_error (st : InferState) (image : ImageInput)
    (toNorm : Bool) (rgb_means rgb_stds : List ℚ) (convert_torch : Bool)
    (img0 : TensorN) (htr : st.training = false) (himg : imgOf image = some img0)
    (hsh : (adjusted_img img0 convert_torch).shape.drop 1 ≠ expected_shape st) :
    (∀ res : TensorN,
      norm_chain (adjusted_img img0 convert_torch) toNorm rgb_means rgb_stds =
          some res →
      (SSDBase.infer st image toNorm rgb_means rgb_stds convert_torch).1 =
        .error (.shapeMismatch (expected_shape st)
          ((adjusted_img img0 convert_torch).shape.drop 1)) ∧
      (SSDBase.infer st image toNorm rgb_means rgb_stds convert_torch).2.1 = st ∧
      (SSDBase.infer st image toNorm rgb_means rgb_stds convert_torch).2.2 =
        (if toNorm then [Ev.normalize] else [Ev.denormalize]) ++ [Ev.shapeCheck]) ∧
    (norm_chain (adjusted_img img0 convert_torch) toNorm rgb_means rgb_stds =
        none →
      (SSDBase.infer st image toNorm rgb_means rgb_stds convert_torch).1 =
        .error .broadcastError ∧
      (SSDBase.infer st image toNorm rgb_means rgb_stds convert_torch).2.1 = st ∧
      (SSDBase.infer st image toNorm rgb_means rgb_stds convert_torch).2.2 = []) := by
  constructor
  · intro res hbc
    rw [infer_eq_mismatch st image toNorm rgb_means rgb_stds convert_torch img0 res
      htr himg hbc hsh]
    exact ⟨rfl, rfl, rfl⟩
  · intro hbc
    rw [infer_eq_bcast_fail st image toNorm rgb_means rgb_stds convert_torch img0
      htr himg hbc]
    exact ⟨rfl, rfl, rfl⟩

/-- C3 witness for the amended claim: a broadcast-compatible image (channel
dimension 1) reaches the shape-identifying error, and a broadcast-incompatible
image (channel dimension 2 against 3 stats) raises the broadcasting error
instead. -/
theorem infer_shape_mismatch_error_witness :
    ((adjusted_img ⟨[1, 1, 1], fun _ => 0⟩ false).shape.drop 1 ≠
        expected_shape ⟨false, [2, 2, 3], false⟩ ∧
      (SSDBase.infer ⟨false, [2, 2, 3], false⟩ (.ndarray ⟨[1, 1, 1], fun _ => 0⟩)
          false [1, 1, 1] [1, 1, 1] false).2.1 = ⟨false, [2, 2, 3], false⟩) ∧
    ((adjusted_img ⟨[1, 2, 1, 1], fun _ => 0⟩ false).shape.drop 1 ≠
        expected_shape ⟨false, [2, 2, 3], false⟩ ∧
      (SSDBase.infer ⟨false, [2, 2, 3], false⟩ (.ndarray ⟨[1, 2, 1, 1], fun _ => 0⟩)
          true [1, 1, 1] [1, 1, 1] false).1 = .error .broadcastError) :=
  ⟨⟨by decide,
      (((infer_shape_mismatch_error ⟨false, [2, 2, 3], false⟩
        (.ndarray ⟨[1, 1, 1], fun _ => 0⟩) false [1, 1, 1] [1, 1, 1] false
        ⟨[1, 1, 1], fun _ => 0⟩ rfl rfl (by decide)).1 _ rfl).2.1)⟩,
    ⟨by decide,
      (((infer_shape_mismatch_error ⟨false, [2, 2, 3], false⟩
        (.ndarray ⟨[1, 2, 1, 1], fun _ => 0⟩) true [1, 1, 1] [1, 1, 1] false
        ⟨[1, 2, 1, 1], fun _ => 0⟩ rfl rfl (by decide)).2 rfl).1)⟩⟩

lemma infer_eq_training (st : InferState) (image : ImageInput) (toNorm : Bool)
    (rgb_means rgb_stds : List ℚ) (convert_torch : Bool)
    (htr : st.training = true) :
    SSDBase.infer st image toNorm rgb_means rgb_stds convert_torch =
      (.error .notTest, st, []) := by
  unfold SSDBase.infer
  rw [htr]
  simp

lemma infer_eq_invalid (st : InferState) (image : ImageInput) (toNorm : Bool)
    (rgb_means rgb_stds : List ℚ) (convert_torch : Bool)
    (htr : st.training = false) (himg : imgOf image = none) :
    SSDBase.infer st image toNorm rgb_means rgb_stds convert_torch =
      (.error .invalidType, st, []) := by
  unfold SSDBase.infer
  rw [htr, himg]
  simp

lemma infer_eq_ok (st : InferState) (image : ImageInput) (toNorm : Bool)
    (rgb_means rgb_stds : List ℚ) (convert_torch : Bool) (img0 res : TensorN)
    (htr : st.training = false) (himg : imgOf image = some img0)
    (hbc : norm_chain (adjusted_img img0 convert_torch) toNorm rgb_means rgb_stds =
      some res)
    (hsh : ¬ (adjusted_img img0 convert_torch).shape.drop 1 ≠ expected_shape st) :
    SSDBase.infer st image toNorm rgb_means rgb_stds convert_torch =
      (.ok
        ((if toNorm then res else adjusted_img img0 convert_torch),
         (if toNorm then adjusted_img img0 convert_torch else res)),
       { st with called_learn_inferr := true },
       (if toNorm then [Ev.normalize] else [Ev.denormalize]) ++
         [Ev.shapeCheck, Ev.setFlag]) := by
  unfold SSDBase.infer
  rw [htr, himg]
  simp only [Bool.false_eq_true, if_false]
  rw [hbc]
  simp only []
  rw [if_neg hsh]

/-- C8: `infer` is atomic on failure — whenever it raises, the state (in
particular the `_called_learn_inferr` flag) is unchanged, since the flag is
assigned only after the shape check passes. -/
theorem infer_error_preserves_flag (st : InferState) (image : ImageInput)
    (toNorm : Bool) (rgb_means rgb_stds : List ℚ) (convert_torch : Bool)
    (e : InferErr)
    (h : (SSDBase.infer st image toNorm rgb_means rgb_stds convert_torch).1 =
      .error e) :
    (SSDBase.infer st image toNorm rgb_means rgb_stds convert_torch).2.1 = st ∧
    ((SSDBase.infer st image toNorm rgb_means rgb_stds convert_torch).2.1).called_learn_inferr =
      st.called_learn_inferr := by
  suffices hst : (SSDBase.infer st image toNorm rgb_means rgb_stds convert_torch).2.1 = st by
    exact ⟨hst, by rw [hst]⟩
  by_cases htr : st.training
  · rw [infer_eq_training st image toNorm rgb_means rgb_stds convert_torch htr]
  · have htr2 : st.training = false := by simpa using htr
    cases himg : imgOf image with
    | none =>
      rw [infer_eq_invalid st image toNorm rgb_means rgb_stds convert_torch htr2 himg]
    | some img0 =>
      cases hbc : norm_chain (adjusted_img img0 convert_torch) toNorm
          rgb_means rgb_stds with
      | none =>
        rw [infer_eq_bcast_fail st image toNorm rgb_means rgb_stds convert_torch
          img0 htr2 himg hbc]
      | some res =>
        by_cases hsh :
            (adjusted_img img0 convert_torch).shape.drop 1 ≠ expected_shape st
        · rw [(infer_eq_mismatch st image toNorm rgb_means rgb_stds
            convert_torch img0 res htr2 himg hbc hsh)]
        · rw [infer_eq_ok st image toNorm rgb_means rgb_stds convert_torch
            img0 res htr2 himg hbc hsh] at h
          exact absurd h (by simp)

/-- C8 witness: a raising call (wrong image type) leaves the flag unchanged. -/
theorem infer_error_preserves_flag_witness :
    (SSDBase.infer ⟨false, [2, 2, 3], false⟩ ImageInput.other true [1] [1] false).1 =
        Except.error InferErr.invalidType ∧
      (SSDBase.infer ⟨false, [2, 2, 3], false⟩ ImageInput.other true [1] [1] false).2.1 =
        ⟨false, [2, 2, 3], false⟩ :=
  ⟨rfl,
    (infer_error_preserves_flag ⟨false, [2, 2, 3], false⟩ ImageInput.other true
      [1] [1] false InferErr.invalidType rfl).1⟩

lemma merge_dim_one (a : Nat) : merge_dim a 1 = a := by
  unfold merge_dim
  split_ifs with h1 <;> omega

lemma merge_dim_self (a : Nat) : merge_dim a a = a := by
  unfold merge_dim
  split_ifs <;> rfl

lemma bcast_op_stats_aligned (op : ℚ → ℚ → ℚ) (t : TensorN) (v : List ℚ)
    (n h w : Nat) (hsh : t.shape = [n, v.length, h, w]) :
    ∃ r, bcast_op op t (stats_tensor v) = some r ∧ r.shape = t.shape ∧
      ∀ b c hh ww, b < n → c < v.length → hh < h → ww < w →
        r.data [b, c, hh, ww] = op (t.data [b, c, hh, ww]) (v.getD c 0) := by
  have hbs : broadcast_shape t.shape (stats_tensor v).shape = some t.shape := by
    unfold broadcast_shape pad1 stats_tensor
    rw [hsh]
    norm_num
    exact ⟨merge_dim_one n, merge_dim_self _, merge_dim_one h, merge_dim_one w⟩
  unfold bcast_op
  rw [hbs]
  refine ⟨_, rfl, rfl, ?_⟩
  intro b c hh ww hb hc hhh hww
  have h1 : src_index t.shape [b, c, hh, ww] = [b, c, hh, ww] := by
    rw [hsh]
    unfold src_index
    norm_num
    refine ⟨?_, ?_, ?_, ?_⟩ <;> omega
  have h2 : (stats_tensor v).data (src_index (stats_tensor v).shape [b, c, hh, ww]) =
      v.getD c 0 := by
    unfold stats_tensor src_index
    norm_num
    by_cases hL : v.length = 1
    · rw [if_pos hL]
      rw [show c = 0 from by omega]
    · rw [if_neg hL]
  show op (t.data (src_index t.shape [b, c, hh, ww]))
      ((stats_tensor v).data (src_index (stats_tensor v).shape [b, c, hh, ww])) =
    op (t.data [b, c, hh, ww]) (v.getD c 0)
  rw [h1, h2]

lemma norm_chain_aligned_true (t : TensorN) (rgb_means rgb_stds : List ℚ)
    (n h w : Nat) (hsh : t.shape = [n, rgb_means.length, h, w])
    (hlen : rgb_stds.length = rgb_means.length) :
    ∃ r, norm_chain t true rgb_means rgb_stds = some r ∧ r.shape = t.shape ∧
      ∀ b c hh ww, b < n → c < rgb_means.length → hh < h → ww < w →
        r.data [b, c, hh, ww] =
          (normTensor t rgb_means rgb_stds).data [b, c, hh, ww] := by
  obtain ⟨r1, hr1, hr1s, hr1d⟩ := bcast_op_stats_aligned (· - ·) t rgb_means n h w hsh
  obtain ⟨r2, hr2, hr2s, hr2d⟩ := bcast_op_stats_aligned (· / ·) r1 rgb_stds n h w
    (by rw [hr1s, hsh, hlen])
  refine ⟨r2, ?_, by rw [hr2s, hr1s], ?_⟩
  · unfold norm_chain
    rw [if_pos rfl, hr1, Option.some_bind, hr2]
  · intro b c hh ww hb hc hhh hww
    rw [hr2d b c hh ww hb (by omega) hhh hww, hr1d b c hh ww hb hc hhh hww]
    simp [normTensor]

lemma norm_chain_aligned_false (t : TensorN) (rgb_means rgb_stds : List ℚ)
    (n h w : Nat) (hsh : t.shape = [n, rgb_means.length, h, w])
    (hlen : rgb_stds.length = rgb_means.length) :
    ∃ r, norm_chain t false rgb_means rgb_stds = some r ∧ r.shape = t.shape ∧
      ∀ b c hh ww, b < n → c < rgb_means.length → hh < h → ww < w →
        r.data [b, c, hh, ww] =
          (denormTensor t rgb_means rgb_stds).data [b, c, hh, ww] := by
  obtain ⟨r1, hr1, hr1s, hr1d⟩ := bcast_op_stats_aligned (· * ·) t rgb_stds n h w
    (by rw [hsh, hlen])
  obtain ⟨r2, hr2, hr2s, hr2d⟩ := bcast_op_stats_aligned (· + ·) r1 rgb_means n h w
    (by rw [hr1s, hsh])
  refine ⟨r2, ?_, by rw [hr2s, hr1s], ?_⟩
  · unfold norm_chain
    rw [if_neg (by simp), hr1, Option.some_bind, hr2]
  · intro b c hh ww hb hc hhh hww
    rw [hr2d b c hh ww hb hc hhh hww, hr1d b c hh ww hb (by omega) hhh hww]
    simp [denormTensor]

/-- C9: the normalization `infer` applies for `toNorm = True` and the
de-normalization it applies for `toNorm = False` are mutually inverse: for
stds with all components nonzero, de-normalizing the normalized image
recovers the original value at every index whose channel is in range, and the
shape is unchanged. -/
theorem infer_norm_denorm_inverse (t : TensorN) (rgb_means rgb_stds : List ℚ)
    (hnz : ∀ c, c < rgb_stds.length → rgb_stds.getD c 0 ≠ 0) :
    (denormTensor (normTensor t rgb_means rgb_stds) rgb_means rgb_stds).shape =
      t.shape ∧
    ∀ ix : List Nat, ix.getD 1 0 < rgb_stds.length →
      (denormTensor (normTensor t rgb_means rgb_stds) rgb_means rgb_stds).data ix =
        t.data ix := by
  refine ⟨rfl, ?_⟩
  intro ix hix
  simp only [denormTensor, normTensor]
  rw [div_mul_cancel₀ _ (hnz _ hix)]
  ring

/-- C9 witness: a concrete image, means and stds. -/
theorem infer_norm_denorm_inverse_witness :
    (∀ c, c < ([2, 4, 8] : List ℚ).length → ([2, 4, 8] : List ℚ).getD c 0 ≠ 0) ∧
      (denormTensor (normTensor ⟨[1, 3, 1, 1], fun _ => 7⟩ [1, 2, 3] [2, 4, 8])
          [1, 2, 3] [2, 4, 8]).data [0, 2, 0, 0] = 7 :=
  ⟨by decide,
    (infer_norm_denorm_inverse ⟨[1, 3, 1, 1], fun _ => 7⟩ [1, 2, 3] [2, 4, 8]
      (by decide)).2 [0, 2, 0, 0] (by decide)⟩

/-! ## src/ssd/core/layers.py — Predictor -/

/-- A 4-d tensor `(batch, c, h, w)` as dimensions plus an indexing function
(index order: batch, channel, row, column). -/
structure Tensor4 where
  batch : Nat
  c : Nat
  h : Nat
  w : Nat
  data : Nat → Nat → Nat → Nat → ℚ

/-- Slice `b` of a `(batch, c, h, w)` tensor flattened in its native
row-major channel-first order: the order the raw input values are stored. -/
def flatCHW (t : Tensor4) (b : Nat) : List ℚ :=
  (List.range t.c).flatMap fun k =>
    (List.range t.h).flatMap fun i =>
      (List.range t.w).map fun j => t.data b k i j

/-- Row `b` of `x.permute((0, 2, 3, 1)).contiguous().reshape((batch_num, -1))`:
the channel-last flattening the Predictor builds per feature map. -/
def flatHWC (t : Tensor4) (b : Nat) : List ℚ :=
  (List.range t.h).flatMap fun i =>
    (List.range t.w).flatMap fun j =>
      (List.range t.c).map fun k => t.data b k i j

/-- Row `b` of `torch.cat(xs_reshaped, dim=1)`: the per-map channel-last
flattenings concatenated in input order. -/
def rowCat (ts : List Tensor4) (b : Nat) : List ℚ :=
  ts.flatMap fun t => flatHWC t b

/-- The full row-major contents of `torch.cat(xs_reshaped, dim=1)` for a
common batch size `batch`. -/
def fullFlat (ts : List Tensor4) (batch : Nat) : List ℚ :=
  (List.range batch).flatMap fun b => rowCat ts b

/-- The raw values of the input tensors, each read off in its native
`(batch, c, h, w)` row-major order, tensors in input order. -/
def inputVals (ts : List Tensor4) (batch : Nat) : List ℚ :=
  ts.flatMap fun t => (List.range batch).flatMap fun b => flatCHW t b

/-- Split a list into consecutive chunks of size `n`
(`reshape((-1, n))` on the trailing axis). -/
def chunksOf {α : Type} : Nat → List α → List (List α)
  | _, [] => []
  | 0, _ :: _ => []
  | n + 1, x :: xs => ((x :: xs).take (n + 1)) :: chunksOf (n + 1) (xs.drop n)
termination_by _ l => l.length
decreasing_by simp [List.length_drop]; omega

/-- The `Predictor` module: its two constructor arguments. -/
structure Predictor where
  total_dbox_nums : Nat
  class_nums : Nat

/-- `Predictor.forward`: concatenate the channel-last flattenings along
dim 1, reshape to `(-1, total_dbox_nums, 4)` resp.
`(-1, total_dbox_nums, class_nums)`, and concatenate the two results along
dim 2. -/
def Predictor.forward (p : Predictor) (batch : Nat) (locs confs : List Tensor4) :
    List (List (List ℚ)) :=
  List.zipWith (List.zipWith (· ++ ·))
    (chunksOf p.total_dbox_nums (chunksOf 4 (fullFlat locs batch)))
    (chunksOf p.total_dbox_nums (chunksOf p.class_nums (fullFlat confs batch)))

/-- All values of the output tensor, in row-major order. -/
def finalFlat (o : List (List (List ℚ))) : List ℚ :=
  (o.map List.flatten).flatten

lemma flatMap_comm_perm {α β γ : Type} (l1 : List α) (l2 : List β)
    (f : α → β → List γ) :
    (l1.flatMap fun a => l2.flatMap fun b => f a b) ~
      (l2.flatMap fun b => l1.flatMap fun a => f a b) := by
  induction l1 with
  | nil => simp
  | cons a l1 ih =>
    simp only [List.flatMap_cons]
    refine ((Perm.refl _).append ih).trans ?_
    exact List.flatMap_append_perm l2 (fun b => f a b) _

lemma flatHWC_perm_flatCHW (t : Tensor4) (b : Nat) : flatHWC t b ~ flatCHW t b := by
  unfold flatHWC flatCHW
  simp only [List.map_eq_flatMap]
  refine Perm.trans (Perm.flatMap_left _ fun i _ => ?_)
    (flatMap_comm_perm (List.range t.h) (List.range t.c)
      (fun i k => (List.range t.w).flatMap fun j => [t.data b k i j]))
  exact flatMap_comm_perm (List.range t.w) (List.range t.c)
    (fun j k => [t.data b k i j])

lemma fullFlat_perm_inputVals (ts : List Tensor4) (batch : Nat) :
    fullFlat ts batch ~ inputVals ts batch := by
  unfold fullFlat rowCat inputVals
  refine Perm.trans (Perm.flatMap_left _ fun b _ => ?_)
    (flatMap_comm_perm (List.range batch) ts fun b t => flatCHW t b)
  exact Perm.flatMap_left _ fun t _ => flatHWC_perm_flatCHW t b

lemma chunksOf_flatten_aux {α : Type} (n : Nat) :
    ∀ (fuel : Nat) (l : List α), l.length ≤ fuel →
      (chunksOf (n + 1) l).flatten = l := by
  intro fuel
  induction fuel with
  | zero =>
    intro l hl
    have hnil : l = [] := List.length_eq_zero.mp (by omega)
    subst hnil
    simp [chunksOf]
  | succ fuel ih =>
    intro l hl
    cases l with
    | nil => simp [chunksOf]
    | cons x xs =>
      simp only [chunksOf, List.flatten_cons]
      rw [ih (xs.drop n)
        (by simp only [List.length_drop]; simp only [List.length_cons] at hl; omega)]
      rw [show xs.drop n = (x :: xs).drop (n + 1) from rfl]
      exact List.take_append_drop (n + 1) (x :: xs)

lemma chunksOf_flatten {α : Type} (n : Nat) (hn : 0 < n) (l : List α) :
    (chunksOf n l).flatten = l := by
  obtain ⟨k, rfl⟩ : ∃ k, n = k + 1 := ⟨n - 1, by omega⟩
  exact chunksOf_flatten_aux k l.length l (le_refl _)

lemma chunksOf_eq_map_aux {α : Type} (n : Nat) :
    ∀ (m : Nat) (l : List α), l.length = m * (n + 1) →
      chunksOf (n + 1) l =
        (List.range m).map fun i => (l.drop ((n + 1) * i)).take (n + 1) := by
  intro m
  induction m with
  | zero =>
    intro l hl
    have hnil : l = [] := List.length_eq_zero.mp (by simpa using hl)
    subst hnil
    simp [chunksOf]
  | succ m ih =>
    intro l hl
    have hpos : 0 < (m + 1) * (n + 1) := Nat.mul_pos (Nat.succ_pos m) (Nat.succ_pos n)
    cases l with
    | nil => rw [List.length_nil] at hl; omega
    | cons x xs =>
      have hxs : (xs.drop n).length = m * (n + 1) := by
        have hlen : xs.length + 1 = (m + 1) * (n + 1) := by simpa using hl
        rw [Nat.succ_mul] at hlen
        simp only [List.length_drop]
        omega
      simp only [chunksOf]
      rw [ih (xs.drop n) hxs, List.range_succ_eq_map, List.map_cons, List.map_map]
      have hhead : (x :: xs).take (n + 1) =
          ((x :: xs).drop ((n + 1) * 0)).take (n + 1) := by simp
      have htail : ∀ i ∈ List.range m,
          ((xs.drop n).drop ((n + 1) * i)).take (n + 1) =
            ((fun i => ((x :: xs).drop ((n + 1) * i)).take (n + 1)) ∘ Nat.succ) i := by
        intro i _
        simp only [Function.comp_apply]
        rw [show xs.drop n = (x :: xs).drop (n + 1) from rfl, List.drop_drop]
        have harith : n + 1 + (n + 1) * i = (n + 1) * Nat.succ i := by
          rw [Nat.mul_succ, Nat.add_comm]
        rw [harith]
      rw [List.map_congr_left htail]
      rw [hhead]

lemma chunksOf_eq_map {α : Type} (n m : Nat) (hn : 0 < n) (l : List α)
    (hl : l.length = m * n) :
    chunksOf n l = (List.range m).map fun i => (l.drop (n * i)).take n := by
  obtain ⟨k, rfl⟩ : ∃ k, n = k + 1 := ⟨n - 1, by omega⟩
  exact chunksOf_eq_map_aux k m l hl

lemma chunksOf_length {α : Type} (n m : Nat) (hn : 0 < n) (l : List α)
    (hl : l.length = m * n) : (chunksOf n l).length = m := by
  rw [chunksOf_eq_map n m hn l hl]
  simp

lemma chunksOf_mem_length {α : Type} (n m : Nat) (hn : 0 < n) (l : List α)
    (hl : l.length = m * n) : ∀ ch ∈ chunksOf n l, ch.length = n := by
  rw [chunksOf_eq_map n m hn l hl]
  intro ch hch
  simp only [List.mem_map, List.mem_range] at hch
  obtain ⟨i, hi, rfl⟩ := hch
  simp only [List.length_take, List.length_drop, hl]
  have h1 : n * (i + 1) ≤ n * m := Nat.mul_le_mul_left n hi
  rw [Nat.mul_succ] at h1
  rw [Nat.mul_comm m n] at *
  generalize n * m = A at *
  generalize n * i = B at *
  omega

lemma append_interleave_perm {α : Type} (a b x y : List α) :
    (a ++ b) ++ (x ++ y) ~ (a ++ x) ++ (b ++ y) := by
  have h1 : (a ++ b) ++ (x ++ y) = a ++ ((b ++ x) ++ y) := by
    simp [List.append_assoc]
  have h2 : (a ++ x) ++ (b ++ y) = a ++ ((x ++ b) ++ y) := by
    simp [List.append_assoc]
  rw [h1, h2]
  exact Perm.append_left a (Perm.append_right y List.perm_append_comm)

lemma flatten_zipWith_append {α : Type} : ∀ (A B : List (List α)),
    A.length = B.length →
    (List.zipWith (· ++ ·) A B).flatten ~ A.flatten ++ B.flatten := by
  intro A
  induction A with
  | nil =>
    intro B h
    rw [List.length_nil] at h
    rw [List.length_eq_zero.mp h.symm]
    simp
  | cons a A ih =>
    intro B h
    cases B with
    | nil => simp at h
    | cons b B =>
      simp only [List.zipWith_cons_cons, List.flatten_cons]
      refine Perm.trans (Perm.append_left _ (ih B (by simpa using h))) ?_
      exact append_interleave_perm a b A.flatten B.flatten

lemma flatten2_zipWith_append {α : Type} (k : Nat) : ∀ (A B : List (List (List α))),
    A.length = B.length →
    (∀ r ∈ A, r.length = k) → (∀ r ∈ B, r.length = k) →
    ((List.zipWith (List.zipWith (· ++ ·)) A B).map List.flatten).flatten ~
      (A.map List.flatten).flatten ++ (B.map List.flatten).flatten := by
  intro A
  induction A with
  | nil =>
    intro B h _ _
    rw [List.length_nil] at h
    rw [List.length_eq_zero.mp h.symm]
    simp
  | cons a A ih =>
    intro B h ha hb
    cases B with
    | nil => simp at h
    | cons b B =>
      simp only [List.zipWith_cons_cons, List.map_cons, List.flatten_cons]
      have h1 : (List.zipWith (· ++ ·) a b).flatten ~ a.flatten ++ b.flatten := by
        apply flatten_zipWith_append
        rw [ha a (by simp), hb b (by simp)]
      refine Perm.trans
        (Perm.append h1
          (ih B (by simpa using h) (fun r hr => ha r (by simp [hr]))
            (fun r hr => hb r (by simp [hr])))) ?_
      exact append_interleave_perm _ _ _ _

/-- C1: `Predictor.forward` is a pure reordering.  For valid inputs (the
flattened localization values fill `batch × total_dbox_nums × 4` slots and
the confidence values `batch × total_dbox_nums × class_nums` slots), the
values of the output tensor are a permutation of the raw input values — each
feature map permuted to channel-last, flattened, concatenated in input order,
and nothing arithmetically changed. -/
theorem predictor_forward_is_permutation (p : Predictor) (batch : Nat)
    (locs confs : List Tensor4)
    (htot : 0 < p.total_dbox_nums) (hcn : 0 < p.class_nums)
    (hlf : (fullFlat locs batch).length = batch * (p.total_dbox_nums * 4))
    (hcf : (fullFlat confs batch).length = batch * (p.total_dbox_nums * p.class_nums)) :
    finalFlat (p.forward batch locs confs) ~
      inputVals locs batch ++ inputVals confs batch := by
  unfold Predictor.forward finalFlat
  have h4 : (fullFlat locs batch).length = (batch * p.total_dbox_nums) * 4 := by
    rw [hlf]; ring
  have hc : (fullFlat confs batch).length =
      (batch * p.total_dbox_nums) * p.class_nums := by
    rw [hcf]; ring
  have hYlen : (chunksOf 4 (fullFlat locs batch)).length = batch * p.total_dbox_nums :=
    chunksOf_length 4 (batch * p.total_dbox_nums) (by norm_num) _ h4
  have hZlen : (chunksOf p.class_nums (fullFlat confs batch)).length =
      batch * p.total_dbox_nums :=
    chunksOf_length p.class_nums (batch * p.total_dbox_nums) hcn _ hc
  have hYlen2 : (chunksOf 4 (fullFlat locs batch)).length =
      batch * p.total_dbox_nums := hYlen
  have hAlen : (chunksOf p.total_dbox_nums (chunksOf 4 (fullFlat locs batch))).length =
      batch :=
    chunksOf_length p.total_dbox_nums batch htot _ (by rw [hYlen])
  have hBlen : (chunksOf p.total_dbox_nums
      (chunksOf p.class_nums (fullFlat confs batch))).length = batch :=
    chunksOf_length p.total_dbox_nums batch htot _ (by rw [hZlen])
  have hAmem : ∀ r ∈ chunksOf p.total_dbox_nums (chunksOf 4 (fullFlat locs batch)),
      r.length = p.total_dbox_nums :=
    chunksOf_mem_length p.total_dbox_nums batch htot _ (by rw [hYlen])
  have hBmem : ∀ r ∈ chunksOf p.total_dbox_nums
      (chunksOf p.class_nums (fullFlat confs batch)),
      r.length = p.total_dbox_nums :=
    chunksOf_mem_length p.total_dbox_nums batch htot _ (by rw [hZlen])
  refine Perm.trans
    (flatten2_zipWith_append p.total_dbox_nums _ _ (by rw [hAlen, hBlen]) hAmem hBmem)
    ?_
  have hA : ((chunksOf p.total_dbox_nums (chunksOf 4 (fullFlat locs batch))).map
      List.flatten).flatten = fullFlat locs batch := by
    rw [← List.flatten_flatten, chunksOf_flatten p.total_dbox_nums htot,
      chunksOf_flatten 4 (by norm_num)]
  have hB : ((chunksOf p.total_dbox_nums
      (chunksOf p.class_nums (fullFlat confs batch))).map List.flatten).flatten =
      fullFlat confs batch := by
    rw [← List.flatten_flatten, chunksOf_flatten p.total_dbox_nums htot,
      chunksOf_flatten p.class_nums hcn]
  rw [hA, hB]
  exact Perm.append (fullFlat_perm_inputVals locs batch)
    (fullFlat_perm_inputVals confs batch)

/-- C1 witness: one feature map with 8 localization channels and 2 confidence
channels on a 1×1 grid, batch 1, 2 default boxes, 1 class. -/
theorem predictor_forward_is_permutation_witness :
    ((fullFlat [⟨1, 8, 1, 1, fun _ k _ _ => (k : ℚ)⟩] 1).length = 1 * (2 * 4)) ∧
    ((fullFlat [⟨1, 2, 1, 1, fun _ k _ _ => (100 + k : ℚ)⟩] 1).length = 1 * (2 * 1)) ∧
    (finalFlat (Predictor.forward ⟨2, 1⟩ 1 [⟨1, 8, 1, 1, fun _ k _ _ => (k : ℚ)⟩]
        [⟨1, 2, 1, 1, fun _ k _ _ => (100 + k : ℚ)⟩]) ~
      inputVals [⟨1, 8, 1, 1, fun _ k _ _ => (k : ℚ)⟩] 1 ++
        inputVals [⟨1, 2, 1, 1, fun _ k _ _ => (100 + k : ℚ)⟩] 1) :=
  ⟨rfl, rfl,
    predictor_forward_is_permutation ⟨2, 1⟩ 1
      [⟨1, 8, 1, 1, fun _ k _ _ => (k : ℚ)⟩]
      [⟨1, 2, 1, 1, fun _ k _ _ => (100 + k : ℚ)⟩]
      (by norm_num) (by norm_num) rfl rfl⟩

lemma chunksOf_getD {α : Type} (n m : Nat) (hn : 0 < n) (l : List α)
    (hl : l.length = m * n) (i : Nat) (hi : i < m) (d : List α) :
    (chunksOf n l).getD i d = (l.drop (n * i)).take n := by
  rw [chunksOf_eq_map n m hn l hl,
    List.getD_eq_getElem _ _ (by simpa using hi), List.getElem_map]
  simp

lemma zipWith_getD {α β γ : Type} (f : α → β → γ) (A : List α) (B : List β)
    (i : Nat) (hA : i < A.length) (hB : i < B.length) (d : γ) (da : α) (db : β) :
    (List.zipWith f A B).getD i d = f (A.getD i da) (B.getD i db) := by
  rw [List.getD_eq_getElem _ _ (by rw [List.length_zipWith]; omega),
    List.getElem_zipWith, List.getD_eq_getElem _ _ hA, List.getD_eq_getElem _ _ hB]

lemma take_drop_getD {α : Type} (l : List α) (a k i : Nat) (d : α)
    (ha : a + k ≤ l.length) (hi : i < k) :
    ((l.drop a).take k).getD i d = l.getD (a + i) d := by
  rw [List.getD_eq_getElem _ _
      (by simp only [List.length_take, List.length_drop]; omega),
    List.getElem_take, List.getElem_drop,
    List.getD_eq_getElem _ _ (by omega)]

lemma chunksOf_mem_mem {α : Type} (n m : Nat) (hn : 0 < n) (l : List α)
    (hl : l.length = m * n) :
    ∀ r ∈ chunksOf n l, ∀ e ∈ r, e ∈ l := by
  rw [chunksOf_eq_map n m hn l hl]
  intro r hr e he
  simp only [List.mem_map, List.mem_range] at hr
  obtain ⟨i, _, rfl⟩ := hr
  exact List.mem_of_mem_drop (List.mem_of_mem_take he)

lemma min_sub_bound (t u v i : Nat) (h : u + t ≤ v) (hi : i < t) :
    i < min t (v - u) := by omega

/-- C2: for valid inputs, `Predictor.forward` returns one flat ordered
sequence per image: `batch` rows of `total_dbox_nums` entries, each entry of
length `4 + class_nums` holding the 4 localization offsets of default box `i`
(the `i`-th 4-block of the image's flattened localization values) followed by
its `class_nums` confidence scores. -/
theorem predictor_forward_layout (p : Predictor) (batch : Nat)
    (locs confs : List Tensor4)
    (htot : 0 < p.total_dbox_nums) (hcn : 0 < p.class_nums)
    (hlf : (fullFlat locs batch).length = batch * (p.total_dbox_nums * 4))
    (hcf : (fullFlat confs batch).length = batch * (p.total_dbox_nums * p.class_nums)) :
    (p.forward batch locs confs).length = batch ∧
    (∀ row ∈ p.forward batch locs confs,
      row.length = p.total_dbox_nums ∧
      ∀ e ∈ row, e.length = 4 + p.class_nums) ∧
    (∀ b i, b < batch → i < p.total_dbox_nums →
      ((p.forward batch locs confs).getD b []).getD i [] =
        ((fullFlat locs batch).drop (4 * (b * p.total_dbox_nums + i))).take 4 ++
        ((fullFlat confs batch).drop
          (p.class_nums * (b * p.total_dbox_nums + i))).take p.class_nums) := by
  have h4 : (fullFlat locs batch).length = (batch * p.total_dbox_nums) * 4 := by
    rw [hlf]; ring
  have hc : (fullFlat confs batch).length =
      (batch * p.total_dbox_nums) * p.class_nums := by
    rw [hcf]; ring
  have hYlen : (chunksOf 4 (fullFlat locs batch)).length = batch * p.total_dbox_nums :=
    chunksOf_length 4 _ (by norm_num) _ h4
  have hZlen : (chunksOf p.class_nums (fullFlat confs batch)).length =
      batch * p.total_dbox_nums :=
    chunksOf_length p.class_nums _ hcn _ hc
  have hAlen : (chunksOf p.total_dbox_nums
      (chunksOf 4 (fullFlat locs batch))).length = batch :=
    chunksOf_length _ batch htot _ (by rw [hYlen])
  have hBlen : (chunksOf p.total_dbox_nums
      (chunksOf p.class_nums (fullFlat confs batch))).length = batch :=
    chunksOf_length _ batch htot _ (by rw [hZlen])
  have hAmem : ∀ r ∈ chunksOf p.total_dbox_nums (chunksOf 4 (fullFlat locs batch)),
      r.length = p.total_dbox_nums :=
    chunksOf_mem_length _ batch htot _ (by rw [hYlen])
  have hBmem : ∀ r ∈ chunksOf p.total_dbox_nums
      (chunksOf p.class_nums (fullFlat confs batch)),
      r.length = p.total_dbox_nums :=
    chunksOf_mem_length _ batch htot _ (by rw [hZlen])
  have hYmem : ∀ ch ∈ chunksOf 4 (fullFlat locs batch), ch.length = 4 :=
    chunksOf_mem_length 4 (batch * p.total_dbox_nums) (by norm_num) _ h4
  have hZmem : ∀ ch ∈ chunksOf p.class_nums (fullFlat confs batch),
      ch.length = p.class_nums :=
    chunksOf_mem_length p.class_nums (batch * p.total_dbox_nums) hcn _ hc
  have hAsub : ∀ r ∈ chunksOf p.total_dbox_nums (chunksOf 4 (fullFlat locs batch)),
      ∀ e ∈ r, e ∈ chunksOf 4 (fullFlat locs batch) :=
    chunksOf_mem_mem _ batch htot _ (by rw [hYlen])
  have hBsub : ∀ r ∈ chunksOf p.total_dbox_nums
      (chunksOf p.class_nums (fullFlat confs batch)),
      ∀ e ∈ r, e ∈ chunksOf p.class_nums (fullFlat confs batch) :=
    chunksOf_mem_mem _ batch htot _ (by rw [hZlen])
  refine ⟨?_, ?_, ?_⟩
  · unfold Predictor.forward
    rw [List.length_zipWith, hAlen, hBlen, Nat.min_self]
  · intro row hrow
    unfold Predictor.forward at hrow
    rw [List.mem_iff_getElem] at hrow
    obtain ⟨ri, hri, hrow⟩ := hrow
    rw [List.getElem_zipWith] at hrow
    subst hrow
    constructor
    · rw [List.length_zipWith, hAmem _ (List.getElem_mem _),
        hBmem _ (List.getElem_mem _), Nat.min_self]
    · intro e he
      rw [List.mem_iff_getElem] at he
      obtain ⟨j, hj, he⟩ := he
      rw [List.getElem_zipWith] at he
      subst he
      rw [List.length_append]
      rw [hYmem _ (hAsub _ (List.getElem_mem _) _ (List.getElem_mem _)),
        hZmem _ (hBsub _ (List.getElem_mem _) _ (List.getElem_mem _))]
  · intro b i hb hi
    have hcomm : b * p.total_dbox_nums + i = p.total_dbox_nums * b + i := by
      rw [Nat.mul_comm]
    rw [hcomm]
    have harith1 : p.total_dbox_nums * b + p.total_dbox_nums ≤
        batch * p.total_dbox_nums := by
      have h6 : p.total_dbox_nums * (b + 1) ≤ p.total_dbox_nums * batch :=
        Nat.mul_le_mul_left _ hb
      calc p.total_dbox_nums * b + p.total_dbox_nums
          = p.total_dbox_nums * (b + 1) := by rw [Nat.mul_succ]
        _ ≤ p.total_dbox_nums * batch := h6
        _ = batch * p.total_dbox_nums := Nat.mul_comm _ _
    have harith2 : p.total_dbox_nums * b + i < batch * p.total_dbox_nums :=
      lt_of_lt_of_le (Nat.add_lt_add_left hi _) harith1
    have h1 : (p.forward batch locs confs).getD b [] =
        List.zipWith (· ++ ·)
          ((chunksOf p.total_dbox_nums (chunksOf 4 (fullFlat locs batch))).getD b [])
          ((chunksOf p.total_dbox_nums
            (chunksOf p.class_nums (fullFlat confs batch))).getD b []) := by
      unfold Predictor.forward
      exact zipWith_getD _ _ _ b (by rw [hAlen]; exact hb) (by rw [hBlen]; exact hb)
        [] [] []
    rw [h1]
    have h2 : (chunksOf p.total_dbox_nums (chunksOf 4 (fullFlat locs batch))).getD b [] =
        ((chunksOf 4 (fullFlat locs batch)).drop (p.total_dbox_nums * b)).take
          p.total_dbox_nums :=
      chunksOf_getD p.total_dbox_nums batch htot _ (by rw [hYlen]) b hb []
    have h3 : (chunksOf p.total_dbox_nums
        (chunksOf p.class_nums (fullFlat confs batch))).getD b [] =
        ((chunksOf p.class_nums (fullFlat confs batch)).drop
          (p.total_dbox_nums * b)).take p.total_dbox_nums :=
      chunksOf_getD p.total_dbox_nums batch htot _ (by rw [hZlen]) b hb []
    rw [h2, h3]
    have hlen2 : i < (((chunksOf 4 (fullFlat locs batch)).drop
        (p.total_dbox_nums * b)).take p.total_dbox_nums).length := by
      simp only [List.length_take, List.length_drop, hYlen]
      exact min_sub_bound _ _ _ _ harith1 hi
    have hlen3 : i < (((chunksOf p.class_nums (fullFlat confs batch)).drop
        (p.total_dbox_nums * b)).take p.total_dbox_nums).length := by
      simp only [List.length_take, List.length_drop, hZlen]
      exact min_sub_bound _ _ _ _ harith1 hi
    rw [zipWith_getD (· ++ ·) _ _ i hlen2 hlen3 [] [] []]
    have h6 : (((chunksOf 4 (fullFlat locs batch)).drop
        (p.total_dbox_nums * b)).take p.total_dbox_nums).getD i [] =
        (chunksOf 4 (fullFlat locs batch)).getD (p.total_dbox_nums * b + i) [] :=
      take_drop_getD _ _ _ _ [] (by rw [hYlen]; exact harith1) hi
    have h7 : (chunksOf 4 (fullFlat locs batch)).getD (p.total_dbox_nums * b + i) [] =
        ((fullFlat locs batch).drop (4 * (p.total_dbox_nums * b + i))).take 4 :=
      chunksOf_getD 4 (batch * p.total_dbox_nums) (by norm_num) _ h4 _ harith2 []
    have h8 : (((chunksOf p.class_nums (fullFlat confs batch)).drop
        (p.total_dbox_nums * b)).take p.total_dbox_nums).getD i [] =
        (chunksOf p.class_nums (fullFlat confs batch)).getD
          (p.total_dbox_nums * b + i) [] :=
      take_drop_getD _ _ _ _ [] (by rw [hZlen]; exact harith1) hi
    have h9 : (chunksOf p.class_nums (fullFlat confs batch)).getD
        (p.total_dbox_nums * b + i) [] =
        ((fullFlat confs batch).drop
          (p.class_nums * (p.total_dbox_nums * b + i))).take p.class_nums :=
      chunksOf_getD p.class_nums (batch * p.total_dbox_nums) hcn _ hc _ harith2 []
    rw [h6, h7, h8, h9]

/-- C2 witness: the toy configuration, image 0, default box 1. -/
theorem predictor_forward_layout_witness :
    ((Predictor.forward ⟨2, 1⟩ 1 [⟨1, 8, 1, 1, fun _ k _ _ => (k + 10 : ℚ)⟩]
        [⟨1, 2, 1, 1, fun _ k _ _ => (200 + k : ℚ)⟩]).length = 1) ∧
    (((Predictor.forward ⟨2, 1⟩ 1 [⟨1, 8, 1, 1, fun _ k _ _ => (k + 10 : ℚ)⟩]
        [⟨1, 2, 1, 1, fun _ k _ _ => (200 + k : ℚ)⟩]).getD 0 []).getD 1 [] =
      ((fullFlat [⟨1, 8, 1, 1, fun _ k _ _ => (k + 10 : ℚ)⟩] 1).drop
        (4 * (0 * 2 + 1))).take 4 ++
      ((fullFlat [⟨1, 2, 1, 1, fun _ k _ _ => (200 + k : ℚ)⟩] 1).drop
        (1 * (0 * 2 + 1))).take 1) :=
  ⟨(predictor_forward_layout ⟨2, 1⟩ 1 [⟨1, 8, 1, 1, fun _ k _ _ => (k + 10 : ℚ)⟩]
      [⟨1, 2, 1, 1, fun _ k _ _ => (200 + k : ℚ)⟩]
      (by norm_num) (by norm_num) rfl rfl).1,
   (predictor_forward_layout ⟨2, 1⟩ 1 [⟨1, 8, 1, 1, fun _ k _ _ => (k + 10 : ℚ)⟩]
      [⟨1, 2, 1, 1, fun _ k _ _ => (200 + k : ℚ)⟩]
      (by norm_num) (by norm_num) rfl rfl).2.2 0 1 (by norm_num) (by norm_num)⟩
